import Mathlib

/-!
Verification of the structured-content detector and renderer of the chat
frontend: the extractor `tryParseDatePlanJson` from
`src/frontend_web/src/components/custom/chat-response-message.tsx` and the
itinerary renderer `DatePlanDisplay` (type lookup tables, plan badges, the
markdown-summary transform).

Modelling conventions for the shallow embedding:
  * JavaScript strings are `String` / `List Char`; the regular expressions of
    the extractor are embedded as matching functions with the exact semantics
    of the concrete patterns used in the source (leftmost match, lazy and
    greedy quantifiers specialised to those patterns).
  * `JSON.parse` / `JSON.stringify` are modelled by an executable
    recursive-descent parser and printer over a `Json` value type.  JSON
    numbers are modelled as integers (every numeric field of the date-plan
    schema is an integer amount); fractional or exponent literals are treated
    as parse failures, and character-class sets (`\s`, whitespace trimmed by
    `String.prototype.trim`) are restricted to their ASCII members.
  * JavaScript exceptions are modelled by `Option`: `JSON.parse` throwing is
    `none`, and the `try`/`catch` of the source maps a `none` to the `null`
    result.
  * JavaScript truthiness and `typeof` are modelled explicitly (`jsTruthy`,
    `typeofIsObject`); property lookup on a parsed object is last-binding
    lookup, matching the way `JSON.parse` builds objects from duplicate keys.
-/

namespace DatePlanSpec

/-- ASCII whitespace accepted by the JSON grammar (`JSON.parse`). -/
def isJsonWs (c : Char) : Bool :=
  c = ' ' || c = '\t' || c = '\n' || c = '\r'

/-- ASCII members of the JavaScript regex class `\s` (also used for
`String.prototype.trim`). -/
def isRegexWs (c : Char) : Bool :=
  c = ' ' || c = '\t' || c = '\n' || c = '\r' || c = '\x0b' || c = '\x0c'

/-- Decimal digit test. -/
def isDigitCh (c : Char) : Bool :=
  ('0' ≤ c) && (c ≤ '9')

/-- JSON values as produced by `JSON.parse`. -/
inductive Json where
  | null : Json
  | bool (b : Bool) : Json
  | num (n : Int) : Json
  | str (s : String) : Json
  | arr (elems : List Json) : Json
  | obj (mems : List (String × Json)) : Json

/-- JavaScript truthiness of a parsed JSON value. -/
def jsTruthy : Json → Bool
  | .null => false
  | .bool b => b
  | .num n => n ≠ 0
  | .str s => s ≠ ""
  | .arr _ => true
  | .obj _ => true

/-- Whether `typeof v === 'object'` holds for a parsed JSON value (`null` and
arrays included, as in JavaScript). -/
def typeofIsObject : Json → Bool
  | .null => true
  | .arr _ => true
  | .obj _ => true
  | _ => false

/-- Last-binding association lookup: the binding that survives when
`JSON.parse` assigns duplicate keys in source order. -/
def lookupLast : List (String × Json) → String → Option Json
  | [], _ => none
  | (k, v) :: t, key =>
    match lookupLast t key with
    | some r => some r
    | none => if k = key then some v else none

/-- Property access `p[key]` on a parsed JSON value; `none` models
`undefined`. -/
def getField : Json → String → Option Json
  | .obj l, key => lookupLast l key
  | _, _ => none

/-- Truthiness of a property access, with absent (`undefined`) falsy. -/
def truthyField (p : Json) (key : String) : Bool :=
  match getField p key with
  | some v => jsTruthy v
  | none => false

/-- The status test of the extractor:
`parsed.status === 'ok' || parsed.status === 'needs_clarification'`. -/
def statusIsAccepted (p : Json) : Bool :=
  match getField p ("status") with
  | some (.str s) => s = "ok" || s = "needs_clarification"
  | _ => false

/-- The shape-discriminator validation of `tryParseDatePlanJson`
(lines 73-78 of the source): truthy, object-typed, accepted status, and a
truthy `plans` or `clarifying_questions` property. -/
def isDatePlanShape (p : Json) : Bool :=
  jsTruthy p && typeofIsObject p && statusIsAccepted p &&
    (truthyField p ("plans") || truthyField p ("clarifying_questions"))

/-! ## Strategy 1: fenced code block

The regex is three backticks, an optional `json` tag, regex whitespace, a
lazily matched brace-delimited body, whitespace, and a closing triple
backtick; the capture is the brace-delimited body. -/

/-- Whether the list starts with three backticks. -/
def isTripleTick : List Char → Bool
  | t1 :: t2 :: t3 :: _ => t1 = '\x60' && t2 = '\x60' && t3 = '\x60'
  | _ => false

/-- Whether regex whitespace followed by a closing triple backtick starts
here (what must follow the lazily captured body). -/
def fenceAfter (cs : List Char) : Bool :=
  isTripleTick (cs.dropWhile isRegexWs)

/-- Lazy scan for the body after the opening brace: the capture ends at the
first closing brace that is followed by whitespace and a closing fence. -/
def scanLazyBody : List Char → Option (List Char)
  | [] => none
  | c :: rest =>
    if c = '\x7d' && fenceAfter rest then some ['\x7d']
    else (scanLazyBody rest).map (fun b => c :: b)

/-- Attempt the fenced-block pattern directly after an opening triple
backtick. -/
def tryFenceAt (cs : List Char) : Option (List Char) :=
  let cs1 := if ("json").data.isPrefixOf cs then cs.drop 4 else cs
  match cs1.dropWhile isRegexWs with
  | c :: rest =>
    if c = '\x7b' then (scanLazyBody rest).map (fun b => '\x7b' :: b) else none
  | [] => none

/-- Leftmost match of the fenced-block pattern: scan forward one character at
a time, as the regex engine does. -/
def findFenced : List Char → Option (List Char)
  | t1 :: t2 :: t3 :: rest =>
    if t1 = '\x60' && t2 = '\x60' && t3 = '\x60' then
      match tryFenceAt rest with
      | some cap => some cap
      | none => findFenced (t2 :: t3 :: rest)
    else findFenced (t2 :: t3 :: rest)
  | _ => none

/-! ## Strategies 2 and 3: tag-prefixed JSON

The pattern is a line beginning with the literal word `json`, at least one
whitespace character, and a greedily matched brace-delimited span: the
capture runs from the first brace to the last closing brace of the text. -/

/-- Longest prefix of the list ending at its last closing brace. -/
def lastBracePrefix : List Char → Option (List Char)
  | [] => none
  | c :: rest =>
    match lastBracePrefix rest with
    | some t => some (c :: t)
    | none => if c = '\x7d' then some [c] else none

/-- Attempt the tag-prefixed pattern at a line start. -/
def tryJsonTagAt (cs : List Char) : Option (List Char) :=
  if ("json").data.isPrefixOf cs then
    match cs.drop 4 with
    | c :: _ =>
      if isRegexWs c then
        match (cs.drop 4).dropWhile isRegexWs with
        | d :: rest =>
          if d = '\x7b' then (lastBracePrefix rest).map (fun b => '\x7b' :: b)
          else none
        | [] => none
      else none
    | [] => none
  else none

/-- Scan for line starts after a line terminator (multiline `^`). -/
def findJsonTagAux : List Char → Option (List Char)
  | [] => none
  | c :: rest =>
    if c = '\n' || c = '\r' then
      match tryJsonTagAt rest with
      | some cap => some cap
      | none => findJsonTagAux rest
    else findJsonTagAux rest

/-- Leftmost match of the tag-prefixed pattern over all line starts. -/
def findJsonTag (cs : List Char) : Option (List Char) :=
  match tryJsonTagAt cs with
  | some cap => some cap
  | none => findJsonTagAux cs

/-! ## Strategy 4: brace-balancing scan -/

/-- Depth-counting scan from the first opening brace: increment on `{`,
decrement on `}`, capture up to the character where the depth returns to
zero.  Braces inside string literals are counted too, exactly as in the
source loop. -/
def braceBalanced : List Char → Nat → Option (List Char)
  | [], _ => none
  | c :: rest, depth =>
    let d := if c = '\x7b' then depth + 1 else if c = '\x7d' then depth - 1 else depth
    if d = 0 then some [c]
    else (braceBalanced rest d).map (fun b => c :: b)

/-- Drop characters up to the first opening brace (`content.indexOf('{')`). -/
def skipToBrace : List Char → Option (List Char)
  | [] => none
  | c :: rest => if c = '\x7b' then some (c :: rest) else skipToBrace rest

/-- The brace-balancing strategy: capture from the first opening brace to its
matching closing brace, or nothing when the braces never balance. -/
def findBraceSpan (cs : List Char) : Option (List Char) :=
  (skipToBrace cs).bind (fun t => braceBalanced t 0)

/-- The candidate-substring cascade of the extractor, in source order; the
third strategy of the source is the same regex as the second and is kept as
a literal duplicate. -/
def findCandidate (cs : List Char) : Option (List Char) :=
  match findFenced cs with
  | some cap => some cap
  | none =>
    match findJsonTag cs with
    | some cap => some cap
    | none =>
      match findJsonTag cs with
      | some cap => some cap
      | none => findBraceSpan cs

/-! ## Candidate clean-up -/

/-- JavaScript `String.prototype.trim` on the ASCII whitespace set. -/
def jsTrim (cs : List Char) : List Char :=
  ((cs.dropWhile isRegexWs).reverse.dropWhile isRegexWs).reverse

/-- Index of the last closing brace (`lastIndexOf('}')`). -/
def lastBraceIndex : List Char → Option Nat
  | [] => none
  | c :: rest =>
    match lastBraceIndex rest with
    | some i => some (i + 1)
    | none => if c = '\x7d' then some 0 else none

/-- Clean-up of the captured substring before parsing: trim, and when the
result does not end with a closing brace, truncate back to the last closing
brace provided its index is positive. -/
def cleanupCandidate (cs : List Char) : List Char :=
  let t := jsTrim cs
  if t.getLast? = some '\x7d' then t
  else
    match lastBraceIndex t with
    | some i => if 0 < i then t.take (i + 1) else t
    | none => t

/-! ## JSON parser (model of `JSON.parse`) -/

/-- Value of a hexadecimal digit. -/
def hexVal (c : Char) : Option Nat :=
  if ('0' ≤ c) && (c ≤ '9') then some (c.toNat - 48)
  else if ('a' ≤ c) && (c ≤ 'f') then some (c.toNat - 87)
  else if ('A' ≤ c) && (c ≤ 'F') then some (c.toNat - 55)
  else none

/-- Single-character JSON string escapes. -/
def unescapeChar (e : Char) : Option Char :=
  if e = '"' then some '"'
  else if e = '\\' then some '\\'
  else if e = '/' then some '/'
  else if e = 'n' then some '\n'
  else if e = 't' then some '\t'
  else if e = 'r' then some '\r'
  else if e = 'b' then some '\x08'
  else if e = 'f' then some '\x0c'
  else none

/-- Body of a JSON string literal after the opening quote: returns the
decoded characters and the remainder after the closing quote.  Unescaped
control characters are rejected, as in `JSON.parse`. -/
def parseStringBody : List Char → Option (List Char × List Char)
  | [] => none
  | c :: rest =>
    if c = '"' then some (([], rest))
    else if c = '\\' then
      match rest with
      | [] => none
      | e :: r2 =>
        if e = 'u' then
          match r2 with
          | h1 :: h2 :: h3 :: h4 :: r3 =>
            (match hexVal h1, hexVal h2, hexVal h3, hexVal h4 with
             | some a, some b, some c2, some d =>
               (parseStringBody r3).map
                 (fun p => (Char.ofNat (((a * 16 + b) * 16 + c2) * 16 + d) :: p.1, p.2))
             | _, _, _, _ => none)
          | _ => none
        else
          match unescapeChar e with
          | some c2 => (parseStringBody r2).map (fun p => (c2 :: p.1, p.2))
          | none => none
    else if c.toNat < 32 then none
    else (parseStringBody rest).map (fun p => (c :: p.1, p.2))

/-- Read a maximal run of decimal digits, accumulating their value. -/
def readDigits : List Char → Nat → (Nat × List Char)
  | [], acc => (acc, [])
  | c :: rest, acc =>
    if isDigitCh c then readDigits rest (acc * 10 + (c.toNat - 48))
    else (acc, c :: rest)

/-- Whether the head of the remainder cannot extend a digit run. -/
def headNotDigit (cs : List Char) : Bool :=
  match cs with
  | c :: _ => !isDigitCh c
  | [] => true

/-- Accumulated decimal value of a digit run. -/
def foldDigits (acc : Nat) (ds : List Char) : Nat :=
  ds.foldl (fun a c => a * 10 + (c.toNat - 48)) acc

/-- Results of the fuelled parser: a value, an array tail, or a member
tail. -/
inductive PRes where
  | v (j : Json) : PRes
  | vs (l : List Json) : PRes
  | ms (l : List (String × Json)) : PRes

/-- Parsing modes: a value, array elements up to `]`, or object members up
to `\x7d`. -/
inductive PMode where
  | val : PMode
  | elems : PMode
  | mems : PMode

/-- Fuelled recursive-descent JSON parser.  In `val` mode it parses one JSON
value; in `elems` mode the elements of an array after `[` (consuming the
closing bracket); in `mems` mode the members of an object after `\x7b`
(consuming the closing brace). -/
def parseF : Nat → PMode → List Char → Option (PRes × List Char)
  | 0, _, _ => none
  | f + 1, .val, cs =>
    (match cs.dropWhile isJsonWs with
     | [] => none
     | c :: rest =>
       if c = 'n' then
         match rest with
         | 'u' :: 'l' :: 'l' :: r => some (.v .null, r)
         | _ => none
       else if c = 't' then
         match rest with
         | 'r' :: 'u' :: 'e' :: r => some (.v (.bool true), r)
         | _ => none
       else if c = 'f' then
         match rest with
         | 'a' :: 'l' :: 's' :: 'e' :: r => some (.v (.bool false), r)
         | _ => none
       else if c = '"' then
         match parseStringBody rest with
         | some (s, r) => some (.v (.str (String.mk s)), r)
         | none => none
       else if c = '-' then
         match rest with
         | d :: _ =>
           if isDigitCh d then
             match readDigits rest 0 with
             | (n, r) => some (.v (.num (-(n : Int))), r)
           else none
         | [] => none
       else if isDigitCh c then
         match readDigits (c :: rest) 0 with
         | (n, r) => some (.v (.num (n : Int)), r)
       else if c = '\x7b' then
         match rest.dropWhile isJsonWs with
         | '\x7d' :: r => some (.v (.obj []), r)
         | _ =>
           match parseF f .mems rest with
           | some (.ms l, r) => some (.v (.obj l), r)
           | _ => none
       else if c = '[' then
         match rest.dropWhile isJsonWs with
         | ']' :: r => some (.v (.arr []), r)
         | _ =>
           match parseF f .elems rest with
           | some (.vs l, r) => some (.v (.arr l), r)
           | _ => none
       else none)
  | f + 1, .elems, cs =>
    (match parseF f .val cs with
     | some (.v j, r) =>
       (match r.dropWhile isJsonWs with
        | ',' :: r2 =>
          (match parseF f .elems r2 with
           | some (.vs l, r3) => some (.vs (j :: l), r3)
           | _ => none)
        | ']' :: r2 => some (.vs [j], r2)
        | _ => none)
     | _ => none)
  | f + 1, .mems, cs =>
    (match cs.dropWhile isJsonWs with
     | '"' :: rest =>
       (match parseStringBody rest with
        | some (k, r1) =>
          (match r1.dropWhile isJsonWs with
           | ':' :: r2 =>
             (match parseF f .val r2 with
              | some (.v j, r3) =>
                (match r3.dropWhile isJsonWs with
                 | ',' :: r4 =>
                   (match parseF f .mems r4 with
                    | some (.ms l, r5) => some (.ms ((String.mk k, j) :: l), r5)
                    | _ => none)
                 | '\x7d' :: r4 => some (.ms [(String.mk k, j)], r4)
                 | _ => none)
              | _ => none)
           | _ => none)
        | none => none)
     | _ => none)

/-- Model of `JSON.parse` on a character list: parse one value with
sufficient fuel and require that only whitespace remains.  `none` models a
thrown `SyntaxError`. -/
def parseJsonChars (cs : List Char) : Option Json :=
  match parseF (2 * cs.length + 2) .val cs with
  | some (.v j, r) => if (r.dropWhile isJsonWs).isEmpty then some j else none
  | _ => none

/-! ## The extractor -/

/-- Shape gate applied to the parse result: a parse failure or a payload
failing the discriminator check yields `none`. -/
def shapeGate : Option Json → Option Json
  | none => none
  | some p => if isDatePlanShape p then some p else none

/-- Core of `tryParseDatePlanJson` on the character content of a string
argument: run the candidate cascade, clean the capture up, parse it, and
validate the shape. -/
def tryParseDatePlanJsonChars (cs : List Char) : Option Json :=
  match findCandidate cs with
  | none => none
  | some cand => shapeGate (parseJsonChars (cleanupCandidate cand))

/-- Untyped JavaScript values, as far as the guard of the extractor needs to
distinguish them. -/
inductive JsValue where
  | undef : JsValue
  | nullv : JsValue
  | boolv (b : Bool) : JsValue
  | numv (n : Int) : JsValue
  | strv (s : String) : JsValue
  | objv : JsValue

/-- Whether `typeof v === 'string'`. -/
def jsTypeofString : JsValue → Bool
  | .strv _ => true
  | _ => false

/-- JavaScript falsiness of the guarded argument. -/
def jsFalsy : JsValue → Bool
  | .undef => true
  | .nullv => true
  | .boolv b => !b
  | .numv n => n = 0
  | .strv s => s = ""
  | .objv => false

/-- The extractor `tryParseDatePlanJson`, guard included: any falsy or
non-string argument returns `null` immediately; otherwise the candidate
cascade and shape validation run on the string content. -/
def tryParseDatePlanJson (content : JsValue) : Option Json :=
  if jsFalsy content || !jsTypeofString content then none
  else
    match content with
    | .strv s => tryParseDatePlanJsonChars s.data
    | _ => none

/-! ## JSON printer (model of `JSON.stringify`) -/

/-- The character of a decimal digit value. -/
def digitChar (n : Nat) : Char := Char.ofNat (48 + n)

/-- The lowercase character of a hexadecimal digit value. -/
def hexChar (n : Nat) : Char := if n < 10 then digitChar n else Char.ofNat (87 + n)

/-- Fuelled decimal printer for naturals (most significant digit first; the
fuel only has to exceed the number of digits). -/
def printNatF : Nat → Nat → List Char
  | 0, _ => []
  | f + 1, n => if n < 10 then [digitChar n] else printNatF f (n / 10) ++ [digitChar (n % 10)]

/-- Decimal printing of a natural number. -/
def printNat (n : Nat) : List Char := printNatF (n + 1) n

/-- Decimal printing of an integer. -/
def printInt : Int → List Char
  | .ofNat n => printNat n
  | .negSucc m => '-' :: printNat (m + 1)

/-- String-character escaping performed by `JSON.stringify`: quote,
backslash, the short control escapes, and `\u00..` for the remaining control
characters. -/
def escapeChar (c : Char) : List Char :=
  if c = '"' then ['\\', '"']
  else if c = '\\' then ['\\', '\\']
  else if c = '\n' then ['\\', 'n']
  else if c = '\r' then ['\\', 'r']
  else if c = '\t' then ['\\', 't']
  else if c = '\x08' then ['\\', 'b']
  else if c = '\x0c' then ['\\', 'f']
  else if c.toNat < 32 then
    '\\' :: 'u' :: '0' :: '0' :: [hexChar (c.toNat / 16), hexChar (c.toNat % 16)]
  else [c]

/-- Escape every character of a string body. -/
def escapeList : List Char → List Char
  | [] => []
  | c :: rest => escapeChar c ++ escapeList rest

/-- A JSON string literal with quotes. -/
def printStrLit (s : String) : List Char :=
  '"' :: escapeList s.data ++ ['"']

mutual

/-- Compact serialisation of a JSON value (`JSON.stringify` with no
spacing). -/
def printJson : Json → List Char
  | .null => ("null").data
  | .bool true => ("true").data
  | .bool false => ("false").data
  | .num n => printInt n
  | .str s => printStrLit s
  | .arr [] => '[' :: [']']
  | .arr (x :: xs) => '[' :: (printJson x ++ printElemsTail xs) ++ [']']
  | .obj [] => '\x7b' :: ['\x7d']
  | .obj ((k, v) :: t) =>
    '\x7b' :: ((printStrLit k ++ ':' :: printJson v) ++ printMemsTail t) ++ ['\x7d']

/-- Serialisation of the remaining array elements, each preceded by a
comma. -/
def printElemsTail : List Json → List Char
  | [] => []
  | y :: ys => ',' :: printJson y ++ printElemsTail ys

/-- Serialisation of the remaining object members, each preceded by a
comma. -/
def printMemsTail : List (String × Json) → List Char
  | [] => []
  | (k, v) :: t => ',' :: (printStrLit k ++ ':' :: printJson v) ++ printMemsTail t

end

/-- Wrap a serialised payload in a markdown code fence tagged `json`, the
round-trip construction of the specification. -/
def fenceWrap (cs : List Char) : List Char :=
  ("```json\n").data ++ cs ++ ("\n```").data

/-- String form of the fenced wrapping of a serialised payload. -/
def fenceWrapStr (cs : List Char) : String := String.mk (fenceWrap cs)

/-! ## Typed payload model (the TypeScript interfaces of the renderer)

`DatePlanDisplay` declares its props with the interfaces `DatePlanLinks`,
`DatePlanItineraryItem`, `DatePlan` and `DatePlanData`.  Fields whose absence
the component code guards against at runtime are modelled with `Option`. -/

/-- The `status` discriminator of the payload. -/
inductive PlanStatus where
  | ok : PlanStatus
  | needs_clarification : PlanStatus
deriving DecidableEq

/-- Outbound links of an itinerary item. -/
structure DatePlanLinks where
  google_maps_search_url : Option String
  web_search_url : Option String
  image_search_url : Option String

/-- One itinerary row (`end` is a reserved word in Lean and is rendered as
`end_`). -/
structure DatePlanItineraryItem where
  start : String
  end_ : String
  type : String
  name : String
  area : String
  notes : Option String
  links : DatePlanLinks

/-- Budget range of a plan. -/
structure BudgetEstimateJpy where
  min : Int
  max : Int
  notes : Option String

/-- The three producer-supplied validation booleans. -/
structure DatePlanChecks where
  meets_exact_time_window : Bool
  no_gaps_or_overlaps : Bool
  rounded_to_30min : Bool

/-- One candidate plan.  `plan_id` is declared `string` in the interface but
the component tolerates its runtime absence, hence `Option`. -/
structure DatePlan where
  plan_id : Option String
  title : String
  theme : String
  summary : String
  budget_estimate_jpy : Option BudgetEstimateJpy
  constraints_respected : Option (List String)
  itinerary : Option (List DatePlanItineraryItem)
  checks : Option DatePlanChecks

/-- The optional `meta` block. -/
structure DatePlanMeta where
  assumed_date : Option String
  timezone : Option String
  rounding_minutes : Option Int
  transport_mode : Option String
  radius_hint : Option String
  meetup_time : Option String
  breakup_time : Option String

/-- The full payload handed to `DatePlanDisplay`. -/
structure DatePlanData where
  status : PlanStatus
  clarifying_questions : Option (List String)
  meta : Option DatePlanMeta
  plans : Option (List DatePlan)
  markdown_summary : Option String

/-! ## Type lookup tables -/

/-- The nine keys of the `typeLabels` / `typeColors` records. -/
def knownItemTypes : List String :=
  [("meetup"), ("move"), ("meal"), ("cafe"), ("activity"), ("shopping"),
   ("rest"), ("breakup"), ("other")]

/-- The own entries of the `typeLabels` record literal (Japanese labels). -/
def typeLabelsOwn (t : String) : Option String :=
  if t = "meetup" then some ("集合")
  else if t = "move" then some ("移動")
  else if t = "meal" then some ("食事")
  else if t = "cafe" then some ("カフェ")
  else if t = "activity" then some ("アクティビティ")
  else if t = "shopping" then some ("ショッピング")
  else if t = "rest" then some ("休憩")
  else if t = "breakup" then some ("解散")
  else if t = "other" then some ("その他")
  else none

/-- The colour class stored under the `other` key. -/
def otherColorClass : String :=
  "bg-neutral-100 text-neutral-800 dark:bg-neutral-700 dark:text-neutral-200"

/-- The own entries of the `typeColors` record literal (Tailwind class
strings). -/
def typeColorsOwn (t : String) : Option String :=
  if t = "meetup" then some ("bg-blue-100 text-blue-800 dark:bg-blue-900 dark:text-blue-200")
  else if t = "move" then some ("bg-gray-100 text-gray-800 dark:bg-gray-700 dark:text-gray-200")
  else if t = "meal" then some ("bg-orange-100 text-orange-800 dark:bg-orange-900 dark:text-orange-200")
  else if t = "cafe" then some ("bg-amber-100 text-amber-800 dark:bg-amber-900 dark:text-amber-200")
  else if t = "activity" then some ("bg-green-100 text-green-800 dark:bg-green-900 dark:text-green-200")
  else if t = "shopping" then some ("bg-purple-100 text-purple-800 dark:bg-purple-900 dark:text-purple-200")
  else if t = "rest" then some ("bg-slate-100 text-slate-800 dark:bg-slate-700 dark:text-slate-200")
  else if t = "breakup" then some ("bg-red-100 text-red-800 dark:bg-red-900 dark:text-red-200")
  else if t = "other" then some (otherColorClass)
  else none

/-- Property names a string-keyed bracket access on a plain object literal
can reach through the prototype chain: the `Object.prototype` members. -/
def objectProtoKeys : List String :=
  [("constructor"), ("hasOwnProperty"), ("isPrototypeOf"), ("propertyIsEnumerable"),
   ("toLocaleString"), ("toString"), ("valueOf"), ("__proto__"),
   ("__defineGetter__"), ("__defineSetter__"), ("__lookupGetter__"), ("__lookupSetter__")]

/-- Outcome of a JavaScript bracket access `record[key]` on one of the two
record literals: an own string value, a truthy non-string value inherited
from `Object.prototype` (a function or the prototype object itself), or
nothing (`undefined`). -/
inductive JsPropValue where
  | str (s : String) : JsPropValue
  | inherited : JsPropValue
  | missing : JsPropValue
deriving DecidableEq

/-- JavaScript bracket access on an object literal with the given own
string-valued entries: own properties shadow the prototype chain, unknown
keys that name an `Object.prototype` member hit its truthy inherited value,
and everything else is `undefined`. -/
def bracketGet (own : String → Option String) (key : String) : JsPropValue :=
  match own key with
  | some s => .str s
  | none => if key ∈ objectProtoKeys then .inherited else .missing

/-- The bracket access `typeLabels[t]`, prototype chain included. -/
def typeLabels (t : String) : JsPropValue := bracketGet typeLabelsOwn t

/-- The bracket access `typeColors[t]`, prototype chain included. -/
def typeColors (t : String) : JsPropValue := bracketGet typeColorsOwn t

/-- A value that reaches the badge markup: a string, or a truthy non-string
value inherited from `Object.prototype` (which `cn` and React then handle as
an opaque non-string, not as the intended class or label). -/
inductive JsDisplayed where
  | text (s : String) : JsDisplayed
  | inheritedValue : JsDisplayed
deriving DecidableEq

/-- The badge label of an itinerary row: the source renders
`typeLabels[item.type] || item.type`; an own label is a non-empty string and
wins, a prototype-chain hit is truthy and wins, and only an absent (or
empty) lookup falls back to the raw type string. -/
def itemBadgeLabel (item : DatePlanItineraryItem) : JsDisplayed :=
  match typeLabels item.type with
  | .str s => if s = "" then .text item.type else .text s
  | .inherited => .inheritedValue
  | .missing => .text item.type

/-- The badge colour of an itinerary row: the source renders
`typeColors[item.type] || typeColors.other`; a prototype-chain hit is truthy
and pre-empts the `other` fallback. -/
def itemBadgeColor (item : DatePlanItineraryItem) : JsDisplayed :=
  match typeColors item.type with
  | .str s => if s = "" then .text otherColorClass else .text s
  | .inherited => .inheritedValue
  | .missing => .text otherColorClass

/-! ## Inline markdown transform of `markdown_summary`

The source computes
`summary.replace(newline, br).replace(h2).replace(h3).replace(bold).replace(italic)`
in that exact order; each replacement is a global regex replace and is
embedded as a scanning function with the source pattern's semantics. -/

/-- First replacement: every newline becomes a `<br>` tag. -/
def replaceNewlines : List Char → List Char
  | [] => []
  | c :: rest =>
    if c = '\n' then '<' :: 'b' :: 'r' :: '>' :: replaceNewlines rest
    else c :: replaceNewlines rest

/-- Split at the first newline; the heading patterns require one because
`.` does not match line terminators. -/
def splitAtNewline : List Char → Option (List Char × List Char)
  | [] => none
  | c :: rest =>
    if c = '\n' then some (([], rest))
    else (splitAtNewline rest).map (fun p => (c :: p.1, p.2))

/-- Fuelled global replacement of a heading pattern `pat  title newline` by
`openT title closeT`; a position where the pattern cannot complete advances
one character, as the regex engine does. -/
def replaceHeadingF : Nat → List Char → List Char → List Char → List Char → List Char
  | 0, _, _, _, cs => cs
  | _, _, _, _, [] => []
  | f + 1, pat, openT, closeT, c :: r =>
    if pat.isPrefixOf (c :: r) then
      match splitAtNewline ((c :: r).drop pat.length) with
      | some (title, rest) =>
        openT ++ title ++ closeT ++ replaceHeadingF f pat openT closeT rest
      | none => c :: replaceHeadingF f pat openT closeT r
    else c :: replaceHeadingF f pat openT closeT r

/-- Global `h2` heading replacement. -/
def replaceH2 (cs : List Char) : List Char :=
  replaceHeadingF (cs.length + 1) (("## ").data) (("<h2>").data) (("</h2>").data) cs

/-- Global `h3` heading replacement. -/
def replaceH3 (cs : List Char) : List Char :=
  replaceHeadingF (cs.length + 1) (("### ").data) (("<h3>").data) (("</h3>").data) cs

/-- Lazy scan for the closing `**` of a bold span; the span cannot cross a
newline. -/
def splitAtCloseStars : List Char → Option (List Char × List Char)
  | '*' :: '*' :: rest => some (([], rest))
  | c :: rest =>
    if c = '\n' then none
    else (splitAtCloseStars rest).map (fun p => (c :: p.1, p.2))
  | [] => none

/-- Fuelled global bold replacement `**..**` to `<strong>..</strong>`. -/
def replaceBoldF : Nat → List Char → List Char
  | 0, cs => cs
  | _, [] => []
  | f + 1, '*' :: '*' :: rest =>
    (match splitAtCloseStars rest with
     | some (inner, after) =>
       ("<strong>").data ++ inner ++ ("</strong>").data ++ replaceBoldF f after
     | none => '*' :: replaceBoldF f ('*' :: rest))
  | f + 1, c :: r => c :: replaceBoldF f r

/-- Global bold replacement. -/
def replaceBold (cs : List Char) : List Char := replaceBoldF (cs.length + 1) cs

/-- Lazy scan for the closing `*` of an italic span. -/
def splitAtCloseStar : List Char → Option (List Char × List Char)
  | '*' :: rest => some (([], rest))
  | c :: rest =>
    if c = '\n' then none
    else (splitAtCloseStar rest).map (fun p => (c :: p.1, p.2))
  | [] => none

/-- Fuelled global italic replacement `*..*` to `<em>..</em>`. -/
def replaceItalicF : Nat → List Char → List Char
  | 0, cs => cs
  | _, [] => []
  | f + 1, '*' :: rest =>
    (match splitAtCloseStar rest with
     | some (inner, after) =>
       ("<em>").data ++ inner ++ ("</em>").data ++ replaceItalicF f after
     | none => '*' :: replaceItalicF f rest)
  | f + 1, c :: r => c :: replaceItalicF f r

/-- Global italic replacement. -/
def replaceItalic (cs : List Char) : List Char := replaceItalicF (cs.length + 1) cs

/-- The markdown-summary transform of `DatePlanDisplay`, with the five
replacements in source order: newlines first, then the two heading
patterns, then bold, then italic. -/
def mdTransform (s : String) : String :=
  String.mk (replaceItalic (replaceBold (replaceH3 (replaceH2 (replaceNewlines s.data)))))

/-! ## Rendered view model -/

/-- The React list key of a plan card: `plan.plan_id || planIndex`. -/
inductive PlanKey where
  | str (s : String) : PlanKey
  | idx (n : Nat) : PlanKey
deriving DecidableEq

/-- Key of the plan at a position, with the truthiness fallback of the
source. -/
def planKeyOf (p : DatePlan) (i : Nat) : PlanKey :=
  match p.plan_id with
  | some s => if s = "" then .idx i else .str s
  | none => .idx i

/-- Content of the plan identifier badge: the source renders
`plan.plan_id` with no fallback, and React renders an absent value as
nothing. -/
def planBadgeText (p : DatePlan) : String :=
  match p.plan_id with
  | some s => s
  | none => ""

/-- Truthiness filter on an optional string (a guard of the form
`value && markup` renders nothing for an absent or empty string). -/
def optTruthyStr : Option String → Option String
  | some s => if s = "" then none else some s
  | none => none

/-- One rendered itinerary row: the data each table cell displays. -/
structure RenderedRow where
  startRaw : String
  endRaw : String
  badgeColor : JsDisplayed
  badgeLabel : JsDisplayed
  name : String
  notes : Option String
  area : String
  mapsLink : Option String
  webLink : Option String
  imageLink : Option String

/-- Rendering of one itinerary row; the time cells receive the raw
timestamp strings (their `Intl` formatting is environment-dependent and out
of scope), and each link renders only when truthy. -/
def renderRow (item : DatePlanItineraryItem) : RenderedRow :=
  { startRaw := item.start
    endRaw := item.end_
    badgeColor := itemBadgeColor item
    badgeLabel := itemBadgeLabel item
    name := item.name
    notes := item.notes
    area := item.area
    mapsLink := optTruthyStr item.links.google_maps_search_url
    webLink := optTruthyStr item.links.web_search_url
    imageLink := optTruthyStr item.links.image_search_url }

/-- One rendered plan card. -/
structure RenderedPlan where
  key : PlanKey
  title : String
  theme : String
  badgeText : String
  summaryPara : Option String
  budget : Option BudgetEstimateJpy
  constraintTags : Option (List String)
  rows : Option (List RenderedRow)
  checksView : Option DatePlanChecks

/-- Rendering of the plan at a position. -/
def renderPlan (i : Nat) (p : DatePlan) : RenderedPlan :=
  { key := planKeyOf p i
    title := p.title
    theme := p.theme
    badgeText := planBadgeText p
    summaryPara := optTruthyStr (some p.summary)
    budget := p.budget_estimate_jpy
    constraintTags :=
      match p.constraints_respected with
      | some l => if 0 < l.length then some l else none
      | none => none
    rows :=
      match p.itinerary with
      | some l => if 0 < l.length then some (l.map renderRow) else none
      | none => none
    checksView := p.checks }

/-- The rendered meta strip: which of the four cells appear and with what
content. -/
structure RenderedMeta where
  meetupRaw : Option String
  breakupRaw : Option String
  transportLabel : Option String
  dateText : Option String

/-- The transport-mode label: suppressed when absent, empty or
`unspecified`; `walk`, `transit` and `car` have fixed Japanese labels and
any other value is shown raw. -/
def transportLabelOf (m : Option String) : Option String :=
  match m with
  | some t =>
    if t = "" || t = "unspecified" then none
    else if t = "walk" then some ("徒歩")
    else if t = "transit" then some ("公共交通")
    else if t = "car" then some ("車")
    else some t
  | none => none

/-- Rendering of the meta strip. -/
def renderMeta (m : DatePlanMeta) : RenderedMeta :=
  { meetupRaw := optTruthyStr m.meetup_time
    breakupRaw := optTruthyStr m.breakup_time
    transportLabel := transportLabelOf m.transport_mode
    dateText := optTruthyStr m.assumed_date }

/-- The three mutually exclusive outputs of `DatePlanDisplay`. -/
inductive RenderedView where
  | clarification (questions : List String) : RenderedView
  | noPlansNotice (message : String) : RenderedView
  | planSet (metaStrip : Option RenderedMeta) (plans : List RenderedPlan)
      (summaryMarkup : Option String) : RenderedView

/-- The renderer `DatePlanDisplay`: clarification view on the
`needs_clarification` status (absent questions render an empty list), the
no-plan notice when `plans` is absent or empty, and otherwise the full plan
set with optional meta strip and transformed markdown summary. -/
def renderDatePlan (data : DatePlanData) : RenderedView :=
  if data.status = .needs_clarification then
    .clarification (data.clarifying_questions.getD [])
  else if (data.plans.getD []).isEmpty then
    .noPlansNotice ("プランが生成されませんでした。")
  else
    .planSet (data.meta.map renderMeta)
      ((data.plans.getD []).enum.map (fun p => renderPlan p.1 p.2))
      ((optTruthyStr data.markdown_summary).map mdTransform)

/-! ## Concrete fixtures used by witnesses and counterexamples -/

/-- A concrete itinerary item with an unrecognised type value. -/
def unknownTypeItem : DatePlanItineraryItem :=
  { start := "2024-05-01 10:00"
    end_ := "2024-05-01 11:00"
    type := "unknown_type_xyz"
    name := "X"
    area := "Y"
    notes := none
    links := ⟨none, none, none⟩ }

/-- A concrete itinerary item whose type names an `Object.prototype`
member. -/
def protoTypeItem : DatePlanItineraryItem :=
  { start := "2024-05-01 10:00"
    end_ := "2024-05-01 11:00"
    type := "toString"
    name := "X"
    area := "Y"
    notes := none
    links := ⟨none, none, none⟩ }

/-- A concrete plan without a `plan_id`. -/
def noIdPlan : DatePlan :=
  { plan_id := none
    title := "T"
    theme := "th"
    summary := ""
    budget_estimate_jpy := none
    constraints_respected := none
    itinerary := none
    checks := none }

/-- A shape-valid payload one of whose strings contains a closing brace
followed by a triple backtick: its serialisation derails the lazy fenced
capture. -/
def backtickPayload : Json :=
  Json.obj [(("status"), Json.str ("needs_clarification")),
    (("clarifying_questions"), Json.arr [Json.str ("a\x7d ```b")])]

/-- A backtick-free shape-valid payload exercising every constructor of the
serialiser. -/
def roundtripPayload : Json :=
  Json.obj [(("status"), Json.str ("ok")),
    (("plans"), Json.arr [Json.obj [(("plan_id"), Json.str ("p1")),
      (("title"), Json.str ("丸の内デート")),
      (("budget"), Json.obj [(("min"), Json.num 5000), (("max"), Json.num 12000)]),
      (("offset"), Json.num (-9)),
      (("notes"), Json.str ("line1\nline2 \"quoted\"")),
      (("flags"), Json.arr [Json.bool true, Json.bool false, Json.null])]])]

/-! ## Helper lemmas about the extractor guard -/

/-- On string arguments the guard only filters the empty string, on which the
cascade finds no candidate anyway: the wrapped extractor and its core agree
on every string. -/
theorem tryParse_strv (s : String) :
    tryParseDatePlanJson (.strv s) = tryParseDatePlanJsonChars s.data := by
  by_cases h : s = ""
  · subst h
    rfl
  · simp [tryParseDatePlanJson, jsFalsy, jsTypeofString, h]

/-! ## Helper lemmas about the shape gate -/

/-- The shape gate yields nothing or a shape-valid payload. -/
theorem shapeGate_cases (o : Option Json) :
    shapeGate o = none ∨ ∃ p, shapeGate o = some p ∧ isDatePlanShape p = true := by
  cases o with
  | none => exact Or.inl rfl
  | some p =>
    by_cases h : isDatePlanShape p = true
    · exact Or.inr ⟨p, by simp [shapeGate, h], h⟩
    · left
      simp [shapeGate, h]

/-- A value returned by the shape gate came from a successful parse and is
shape-valid. -/
theorem shapeGate_eq_some {o : Option Json} {p : Json} (h : shapeGate o = some p) :
    o = some p ∧ isDatePlanShape p = true := by
  cases o with
  | none => simp [shapeGate] at h
  | some q =>
    by_cases hq : isDatePlanShape q = true
    · simp [shapeGate, hq] at h
      exact ⟨by rw [h], by rw [← h]; exact hq⟩
    · simp [shapeGate, hq] at h

/-- An accepted status forces the payload to be an object: property access
on any other value is `undefined`. -/
theorem statusAccepted_obj {p : Json} (h : statusIsAccepted p = true) :
    ∃ mems, p = Json.obj mems := by
  cases p with
  | obj mems => exact ⟨mems, rfl⟩
  | null => simp [statusIsAccepted, getField] at h
  | bool b => simp [statusIsAccepted, getField] at h
  | num n => simp [statusIsAccepted, getField] at h
  | str s => simp [statusIsAccepted, getField] at h
  | arr l => simp [statusIsAccepted, getField] at h

/-- A truthy property is in particular present. -/
theorem truthyField_isSome {p : Json} {k : String} (h : truthyField p k = true) :
    (getField p k).isSome := by
  unfold truthyField at h
  cases hg : getField p k with
  | none => rw [hg] at h; cases h
  | some v => simp

/-! ## Claims C1 and C2: totality and the shape discriminator -/

/-- C1.  For every input string the extractor terminates with either `null`
or a parsed payload: every candidate miss, parse failure or shape-validation
failure flows to the `none` result, never to an uncaught error (exceptions
of `JSON.parse` are the `none` results of `parseJsonChars`, absorbed by the
shape gate exactly as the source's `try`/`catch` absorbs a throw). -/
theorem c1_extractor_total (s : String) :
    tryParseDatePlanJson (.strv s) = none ∨
      ∃ p, tryParseDatePlanJson (.strv s) = some p ∧ isDatePlanShape p = true := by
  rw [tryParse_strv]
  unfold tryParseDatePlanJsonChars
  cases findCandidate s.data with
  | none => exact Or.inl rfl
  | some cand => exact shapeGate_cases _

/-- C2.  The extractor returns a non-absent result only for a non-null
object whose `status` is `ok` or `needs_clarification` and which carries a
`plans` or `clarifying_questions` property; any other parsed value is
rejected by the shape discriminator. -/
theorem c2_shape_discriminator (s : String) (p : Json)
    (h : tryParseDatePlanJson (.strv s) = some p) :
    (∃ mems, p = Json.obj mems) ∧ statusIsAccepted p = true ∧
      ((getField p (("plans"))).isSome ∨ (getField p (("clarifying_questions"))).isSome) := by
  rw [tryParse_strv] at h
  unfold tryParseDatePlanJsonChars at h
  rcases hfc : findCandidate s.data with _ | cand
  · rw [hfc] at h
    cases h
  · rw [hfc] at h
    obtain ⟨-, hshape⟩ := shapeGate_eq_some h
    have hs := hshape
    simp only [isDatePlanShape, Bool.and_eq_true, Bool.or_eq_true] at hs
    obtain ⟨⟨⟨-, -⟩, hstat⟩, hpres⟩ := hs
    refine ⟨statusAccepted_obj hstat, hstat, ?_⟩
    rcases hpres with hpl | hcq
    · exact Or.inl (truthyField_isSome hpl)
    · exact Or.inr (truthyField_isSome hcq)

/-- Witness for C2 at a concrete string containing a bare date-plan
object. -/
theorem c2_shape_discriminator_witness :
    tryParseDatePlanJson (.strv ("\x7b\"status\": \"ok\", \"plans\": [1]\x7d")) =
        some (Json.obj [(("status"), Json.str ("ok")), (("plans"), Json.arr [Json.num 1])]) ∧
      ((∃ mems,
          Json.obj [(("status"), Json.str ("ok")), (("plans"), Json.arr [Json.num 1])] =
            Json.obj mems) ∧
        statusIsAccepted
            (Json.obj [(("status"), Json.str ("ok")), (("plans"), Json.arr [Json.num 1])]) =
          true ∧
        ((getField (Json.obj [(("status"), Json.str ("ok")), (("plans"), Json.arr [Json.num 1])])
              (("plans"))).isSome ∨
          (getField (Json.obj [(("status"), Json.str ("ok")), (("plans"), Json.arr [Json.num 1])])
              (("clarifying_questions"))).isSome)) :=
  ⟨rfl, c2_shape_discriminator ("\x7b\"status\": \"ok\", \"plans\": [1]\x7d") _ rfl⟩

/-! ## Claims C7 and C8: clean-up determinism and the first-match cascade -/

/-- C7.  The extractor never raises on truncated input: for every string it
deterministically returns absent, or the shape-gated parse of the found
candidate after the clean-up that trims the candidate back to its last
complete closing brace; and at the concrete truncation point of a `plans`
array cut off mid-object the outcome is absent. -/
theorem c7_truncation_deterministic :
    (∀ s : String,
        tryParseDatePlanJson (.strv s) = none ∨
          ∃ cand, findCandidate s.data = some cand ∧
            tryParseDatePlanJson (.strv s) =
              shapeGate (parseJsonChars (cleanupCandidate cand))) ∧
      tryParseDatePlanJson
          (.strv ("json \x7b\"status\": \"ok\", \"plans\": [\x7b\"a\": 1\x7d")) = none := by
  refine ⟨fun s => ?_, rfl⟩
  rw [tryParse_strv]
  unfold tryParseDatePlanJsonChars
  cases hfc : findCandidate s.data with
  | none => exact Or.inl rfl
  | some cand => exact Or.inr ⟨cand, rfl, rfl⟩

/-- C8.  The cascade is first-match-wins on finding a substring: a fenced
capture pre-empts every later strategy, the final result is fully determined
by the candidate the cascade found, and a candidate whose parse fails makes
the whole extractor return absent instead of advancing to a later
strategy. -/
theorem c8_first_match_wins (s : String) (c : List Char) :
    (findFenced s.data = some c → findCandidate s.data = some c) ∧
      (findCandidate s.data = some c →
        tryParseDatePlanJson (.strv s) = shapeGate (parseJsonChars (cleanupCandidate c))) ∧
      (findCandidate s.data = some c → parseJsonChars (cleanupCandidate c) = none →
        tryParseDatePlanJson (.strv s) = none) := by
  refine ⟨fun h => ?_, fun h => ?_, fun h hp => ?_⟩
  · unfold findCandidate
    rw [h]
  · rw [tryParse_strv]
    unfold tryParseDatePlanJsonChars
    rw [h]
  · rw [tryParse_strv]
    unfold tryParseDatePlanJsonChars
    rw [h]
    show shapeGate (parseJsonChars (cleanupCandidate c)) = none
    rw [hp]
    rfl

/-- Witness for C8: a fenced block whose body is not valid JSON is found by
the first strategy and the extractor returns absent. -/
theorem c8_first_match_wins_witness :
    findFenced (("```json\n\x7bnot json\x7d\n```") : String).data =
        some (("\x7bnot json\x7d") : String).data ∧
      findCandidate (("```json\n\x7bnot json\x7d\n```") : String).data =
        some (("\x7bnot json\x7d") : String).data ∧
      tryParseDatePlanJson (.strv ("```json\n\x7bnot json\x7d\n```")) = none :=
  ⟨rfl,
    (c8_first_match_wins ("```json\n\x7bnot json\x7d\n```") (("\x7bnot json\x7d") : String).data).1 rfl,
    (c8_first_match_wins ("```json\n\x7bnot json\x7d\n```") (("\x7bnot json\x7d") : String).data).2.2 rfl rfl⟩

/-! ## Claim C10: the non-string guard -/

/-- C10.  A null, undefined, empty-string or non-string argument makes the
extractor return `null` at its guard, before any matching or parsing
runs. -/
theorem c10_input_guard (v : JsValue)
    (h : v = .nullv ∨ v = .undef ∨ v = .strv ("") ∨ jsTypeofString v = false) :
    tryParseDatePlanJson v = none := by
  rcases h with rfl | rfl | rfl | h
  · rfl
  · rfl
  · rfl
  · unfold tryParseDatePlanJson
    rw [h]
    simp

/-- Witness for C10 at the `null` argument. -/
theorem c10_input_guard_witness : tryParseDatePlanJson .nullv = none :=
  c10_input_guard .nullv (Or.inl rfl)

/-! ## Claim C3: unknown itinerary type -/

/-- Counterexample to C3: for the unknown type `unknown_type_xyz` the
rendered badge does use the `other` colour class, but its label is the raw
type string rather than the `other` label `その他`. -/
theorem c3_counterexample :
    (renderRow unknownTypeItem).badgeColor = .text otherColorClass ∧
      (renderRow unknownTypeItem).badgeLabel = .text ("unknown_type_xyz") ∧
      typeLabelsOwn ("other") = some ("その他") ∧
      (JsDisplayed.text ("unknown_type_xyz")) ≠ .text ("その他") :=
  ⟨rfl, rfl, rfl, by decide⟩

/-- Outside the nine known keys both record literals have no own entry. -/
theorem own_none_of_not_known {t : String} (h : t ∉ knownItemTypes) :
    typeLabelsOwn t = none ∧ typeColorsOwn t = none := by
  simp only [knownItemTypes, List.mem_cons, List.mem_singleton, not_or] at h
  obtain ⟨h1, h2, h3, h4, h5, h6, h7, h8, h9, -⟩ := h
  constructor
  · simp [typeLabelsOwn, h1, h2, h3, h4, h5, h6, h7, h8, h9]
  · simp [typeColorsOwn, h1, h2, h3, h4, h5, h6, h7, h8, h9]

/-- C3 as amended: for an itinerary item whose type is outside the nine
known keys and is not the name of an `Object.prototype` member, the badge
gets the `other` colour class while the label falls back to the raw type
string (not to the `other` label); when the unknown type does name an
`Object.prototype` member, the bracket lookups hit its truthy inherited
value, which pre-empts both fallbacks. -/
theorem c3_unknown_type_fallback :
    (∀ item : DatePlanItineraryItem, item.type ∉ knownItemTypes →
      item.type ∉ objectProtoKeys →
      (renderRow item).badgeColor = .text otherColorClass ∧
        (renderRow item).badgeLabel = .text item.type) ∧
    (∀ item : DatePlanItineraryItem, item.type ∉ knownItemTypes →
      item.type ∈ objectProtoKeys →
      (renderRow item).badgeColor = JsDisplayed.inheritedValue ∧
        (renderRow item).badgeLabel = JsDisplayed.inheritedValue) := by
  constructor
  · intro item h hp
    obtain ⟨hl, hc⟩ := own_none_of_not_known h
    constructor
    · simp [renderRow, itemBadgeColor, typeColors, bracketGet, hc, hp]
    · simp [renderRow, itemBadgeLabel, typeLabels, bracketGet, hl, hp]
  · intro item h hp
    obtain ⟨hl, hc⟩ := own_none_of_not_known h
    constructor
    · simp [renderRow, itemBadgeColor, typeColors, bracketGet, hc, hp]
    · simp [renderRow, itemBadgeLabel, typeLabels, bracketGet, hl, hp]

/-- Witness for the amended C3, at a concrete ordinary unknown type and at
a concrete prototype-member type. -/
theorem c3_unknown_type_fallback_witness :
    (unknownTypeItem.type ∉ knownItemTypes ∧ unknownTypeItem.type ∉ objectProtoKeys ∧
      ((renderRow unknownTypeItem).badgeColor = .text otherColorClass ∧
        (renderRow unknownTypeItem).badgeLabel = .text unknownTypeItem.type)) ∧
    (protoTypeItem.type ∉ knownItemTypes ∧ protoTypeItem.type ∈ objectProtoKeys ∧
      ((renderRow protoTypeItem).badgeColor = JsDisplayed.inheritedValue ∧
        (renderRow protoTypeItem).badgeLabel = JsDisplayed.inheritedValue)) :=
  ⟨⟨by decide, by decide,
    c3_unknown_type_fallback.1 unknownTypeItem (by decide) (by decide)⟩,
   ⟨by decide, by decide,
    c3_unknown_type_fallback.2 protoTypeItem (by decide) (by decide)⟩⟩

/-! ## Claim C4: the markdown-summary transform -/

/-- C4 evaluated at the failing input: because the transform replaces every
newline by `<br>` first, the heading rewrites (which require a literal
newline after the title) can never fire, so a summary consisting of a
`## Title` line followed by a newline renders the raw hashes and no `h2`
element; the bold, italic and line-break rewrites do apply. -/
theorem c4_heading_rewrites_unreachable :
    mdTransform ("## Title\nBody") = ("## Title<br>Body") ∧
      mdTransform ("**b**\n*i*") = ("<strong>b</strong><br><em>i</em>") :=
  ⟨rfl, rfl⟩

/-! ## Claim C5: the plan identifier badge -/

/-- Counterexample to C5: with `plan_id` absent, the badge of the first plan
renders empty — not the positional index `0`; only the React list key falls
back to the index. -/
theorem c5_counterexample :
    (renderPlan 0 noIdPlan).badgeText = ("") ∧
      (("") : String) ≠ ("0") ∧
      (renderPlan 0 noIdPlan).key = .idx 0 :=
  ⟨rfl, by decide, rfl⟩

/-- C5 as amended: when `plan_id` is absent the positional-index fallback
applies to the list key of the plan card, while the identifier badge itself
renders the absent `plan_id` as empty content. -/
theorem c5_key_fallback (p : DatePlan) (i : Nat) (h : p.plan_id = none) :
    (renderPlan i p).key = .idx i ∧ (renderPlan i p).badgeText = ("") := by
  constructor
  · simp [renderPlan, planKeyOf, h]
  · simp [renderPlan, planBadgeText, h]

/-- Witness for the amended C5 at the concrete plan and index `0`. -/
theorem c5_key_fallback_witness :
    noIdPlan.plan_id = none ∧
      ((renderPlan 0 noIdPlan).key = .idx 0 ∧ (renderPlan 0 noIdPlan).badgeText = ("")) :=
  ⟨rfl, c5_key_fallback noIdPlan 0 rfl⟩

/-! ## Claim C9: the empty-plans notice and its reachability -/

/-- C9.  Any payload whose status is `ok` with `plans` absent or empty
renders the explicit no-plan notice; and such payloads do pass the
extractor, because its presence check accepts `clarifying_questions`
alone (concretely: an `ok` object carrying only questions is returned
with no `plans` property). -/
theorem c9_no_plans_notice :
    (∀ d : DatePlanData, d.status = .ok → (d.plans = none ∨ d.plans = some []) →
        renderDatePlan d = .noPlansNotice ("プランが生成されませんでした。")) ∧
      (tryParseDatePlanJson (.strv ("\x7b\"status\": \"ok\", \"clarifying_questions\": [\"q\"]\x7d")) =
          some (Json.obj [(("status"), Json.str ("ok")),
            (("clarifying_questions"), Json.arr [Json.str ("q")])]) ∧
        getField (Json.obj [(("status"), Json.str ("ok")),
            (("clarifying_questions"), Json.arr [Json.str ("q")])]) (("plans")) = none) := by
  refine ⟨fun d hst hpl => ?_, rfl, rfl⟩
  unfold renderDatePlan
  rw [hst]
  rcases hpl with h | h <;> simp [h]

/-- Witness for C9 at a concrete `ok` payload with no plans. -/
theorem c9_no_plans_notice_witness :
    renderDatePlan
        { status := .ok, clarifying_questions := some [("q")], meta := none,
          plans := none, markdown_summary := none } =
      .noPlansNotice ("プランが生成されませんでした。") :=
  c9_no_plans_notice.1 _ rfl (Or.inl rfl)

/-! ## Development for the round-trip claim (C6): character lemmas,
parser-printer round trip, fenced-capture analysis -/

theorem char_eq_of_toNat {c d : Char} (h : c.toNat = d.toNat) : c = d := by
  cases c
  cases d
  simp only [Char.toNat] at h
  congr 1
  exact UInt32.ext h

theorem toNat_ofNat_small {n : Nat} (h : n < 55296) : (Char.ofNat n).toNat = n := by
  have hv : n.isValidChar := Or.inl h
  unfold Char.ofNat
  rw [dif_pos hv]
  rfl

theorem hexVal_hexChar {n : Nat} (h : n < 16) : hexVal (hexChar n) = some n := by
  interval_cases n <;> decide

theorem ofNat_toNat_small {c : Char} (h : c.toNat < 55296) : Char.ofNat c.toNat = c :=
  char_eq_of_toNat (toNat_ofNat_small h)

/-- The escape of one character prepended to a string-body tail parses to
that character followed by the parse of the tail. -/
theorem psb_escapeChar (c : Char) (r : List Char) :
    parseStringBody (escapeChar c ++ r) =
      (parseStringBody r).map (fun p => (c :: p.1, p.2)) := by
  unfold escapeChar
  by_cases h1 : c = '"'
  · subst h1
    rw [if_pos rfl, parseStringBody.eq_def]
    simp [unescapeChar]
  · rw [if_neg h1]
    by_cases h2 : c = '\\'
    · subst h2
      rw [if_pos rfl, parseStringBody.eq_def]
      simp [unescapeChar]
    · rw [if_neg h2]
      by_cases h3 : c = '\n'
      · subst h3
        rw [if_pos rfl, parseStringBody.eq_def]
        simp [unescapeChar]
      · rw [if_neg h3]
        by_cases h4 : c = '\r'
        · subst h4
          rw [if_pos rfl, parseStringBody.eq_def]
          simp [unescapeChar]
        · rw [if_neg h4]
          by_cases h5 : c = '\t'
          · subst h5
            rw [if_pos rfl, parseStringBody.eq_def]
            simp [unescapeChar]
          · rw [if_neg h5]
            by_cases h6 : c = '\x08'
            · subst h6
              rw [if_pos rfl, parseStringBody.eq_def]
              simp [unescapeChar]
            · rw [if_neg h6]
              by_cases h7 : c = '\x0c'
              · subst h7
                rw [if_pos rfl, parseStringBody.eq_def]
                simp [unescapeChar]
              · rw [if_neg h7]
                by_cases h8 : c.toNat < 32
                · rw [if_pos h8]
                  have hhi : c.toNat / 16 < 16 := by omega
                  have hlo : c.toNat % 16 < 16 := by omega
                  have key : Char.ofNat (c.toNat / 16 * 16 + c.toNat % 16) = c := by
                    have harith : c.toNat / 16 * 16 + c.toNat % 16 = c.toNat := by omega
                    rw [harith]
                    exact ofNat_toNat_small (by omega)
                  rw [parseStringBody.eq_def]
                  simp only [List.cons_append, List.nil_append, reduceIte]
                  rw [hexVal_hexChar hhi, hexVal_hexChar hlo,
                    show hexVal '0' = some 0 from rfl]
                  simp [key]
                · rw [if_neg h8]
                  rw [List.singleton_append, parseStringBody.eq_def]
                  simp [h1, h2, h8]

/-- The escaped serialisation of a string body followed by the closing quote
parses back to the original characters. -/
theorem parseStringBody_escape (l : List Char) (rest : List Char) :
    parseStringBody (escapeList l ++ '"' :: rest) = some ((l, rest)) := by
  induction l with
  | nil =>
    rw [escapeList, List.nil_append, parseStringBody.eq_def]
    simp
  | cons c l ih =>
    rw [escapeList, List.append_assoc, psb_escapeChar, ih]
    rfl


theorem isDigitCh_iff {c : Char} : isDigitCh c = true ↔ 48 ≤ c.toNat ∧ c.toNat ≤ 57 := by
  unfold isDigitCh
  rw [Bool.and_eq_true, decide_eq_true_eq, decide_eq_true_eq]
  exact Iff.rfl

theorem digitChar_toNat {n : Nat} (h : n < 10) : (digitChar n).toNat = 48 + n :=
  toNat_ofNat_small (by omega)

theorem isDigitCh_digitChar {n : Nat} (h : n < 10) : isDigitCh (digitChar n) = true := by
  rw [isDigitCh_iff, digitChar_toNat h]
  omega

/-- `readDigits` consumes exactly a digit run when the remainder starts with
a non-digit. -/
theorem readDigits_run : ∀ (ds : List Char) (rest : List Char) (acc : Nat),
    (∀ c ∈ ds, isDigitCh c = true) → headNotDigit rest = true →
    readDigits (ds ++ rest) acc = ((foldDigits acc ds, rest))
  | [], rest, acc, _, hrest => by
    cases rest with
    | nil => rfl
    | cons c r =>
      have hc : isDigitCh c = false := by
        unfold headNotDigit at hrest
        simpa using hrest
      rw [List.nil_append, readDigits, hc]
      rfl
  | d :: ds, rest, acc, hds, hrest => by
    have hd : isDigitCh d = true := hds d (by simp)
    rw [List.cons_append, readDigits, hd]
    simp only [reduceIte]
    rw [readDigits_run ds rest _ (fun c hc => hds c (by simp [hc])) hrest]
    rfl

/-- The decimal printer emits a non-empty run of digit characters. -/
theorem printNatF_digits : ∀ (f n : Nat), n < f →
    printNatF f n ≠ [] ∧ ∀ c ∈ printNatF f n, isDigitCh c = true := by
  intro f
  induction f with
  | zero => omega
  | succ f ih =>
    intro n hn
    rw [printNatF]
    by_cases h : n < 10
    · rw [if_pos h]
      exact ⟨by simp, by simpa using isDigitCh_digitChar h⟩
    · rw [if_neg h]
      have hrec := ih (n / 10) (by omega)
      refine ⟨by simp [hrec.1], ?_⟩
      intro c hc
      rcases List.mem_append.mp hc with hm | hm
      · exact hrec.2 c hm
      · rw [List.mem_singleton.mp hm]
        exact isDigitCh_digitChar (by omega)

/-- Value of the digit run produced by the decimal printer. -/
theorem foldDigits_printNatF : ∀ (f n acc : Nat), n < f →
    foldDigits acc (printNatF f n) = acc * 10 ^ (printNatF f n).length + n := by
  intro f
  induction f with
  | zero => omega
  | succ f ih =>
    intro n acc hn
    rw [printNatF]
    by_cases h : n < 10
    · rw [if_pos h]
      unfold foldDigits
      simp [digitChar_toNat h]
    · rw [if_neg h]
      unfold foldDigits
      rw [List.foldl_append]
      have hrec := ih (n / 10) acc (by omega)
      unfold foldDigits at hrec
      rw [hrec]
      simp only [List.foldl_cons, List.foldl_nil, List.length_append,
        List.length_singleton]
      rw [digitChar_toNat (by omega : n % 10 < 10)]
      have : 10 ^ ((printNatF f (n / 10)).length + 1)
          = 10 ^ (printNatF f (n / 10)).length * 10 := by
        rw [pow_succ]
      rw [this]
      have harith : 48 + n % 10 - 48 = n % 10 := by omega
      rw [harith]
      ring_nf
      omega

/-- Parsing the printed decimal of a natural with a non-digit remainder
recovers the number. -/
theorem readDigits_printNat (n : Nat) (rest : List Char) (h : headNotDigit rest = true) :
    readDigits (printNat n ++ rest) 0 = ((n, rest)) := by
  unfold printNat
  have hd := printNatF_digits (n + 1) n (by omega)
  rw [readDigits_run _ _ _ hd.2 h, foldDigits_printNatF (n + 1) n 0 (by omega)]
  simp


theorem parseF_val_null (g : Nat) (rest : List Char) :
    parseF (g + 1) .val ('n' :: 'u' :: 'l' :: 'l' :: rest) = some ((.v .null, rest)) := by
  rw [parseF.eq_def]
  rfl

theorem parseF_val_true (g : Nat) (rest : List Char) :
    parseF (g + 1) .val ('t' :: 'r' :: 'u' :: 'e' :: rest) = some ((.v (.bool true), rest)) := by
  rw [parseF.eq_def]
  rfl

theorem parseF_val_str (g : Nat) (T : List Char) :
    parseF (g + 1) .val ('"' :: T) =
      (match parseStringBody T with
       | some (s, r) => some ((PRes.v (.str (String.mk s)), r))
       | none => none) := by
  rw [parseF.eq_def]
  rfl

theorem parseF_elems_step (g : Nat) (cs : List Char) :
    parseF (g + 1) .elems cs =
      (match parseF g .val cs with
       | some (.v j, r) =>
         (match r.dropWhile isJsonWs with
          | ',' :: r2 =>
            (match parseF g .elems r2 with
             | some (.vs l, r3) => some ((PRes.vs (j :: l), r3))
             | _ => none)
          | ']' :: r2 => some ((PRes.vs [j], r2))
          | _ => none)
       | _ => none) := by
  rw [parseF.eq_def]


theorem not_ws_of_digit {c : Char} (h : isDigitCh c = true) : isJsonWs c = false := by
  rw [isDigitCh_iff] at h
  unfold isJsonWs
  have h32 : c ≠ ' ' := fun he => absurd h (by subst he; decide)
  have h9 : c ≠ '\t' := fun he => absurd h (by subst he; decide)
  have h10 : c ≠ '\n' := fun he => absurd h (by subst he; decide)
  have h13 : c ≠ '\r' := fun he => absurd h (by subst he; decide)
  simp [h32, h9, h10, h13]

theorem dropWhile_id {c : Char} {t : List Char} (h : isJsonWs c = false) :
    List.dropWhile isJsonWs (c :: t) = c :: t := by
  rw [List.dropWhile_cons, h]
  simp

theorem mk_data (s : String) : String.mk s.data = s := rfl

/-- The serialisation of any value starts with a non-whitespace character
distinct from a closing bracket. -/
theorem printJson_head (j : Json) :
    ∃ c t, printJson j = c :: t ∧ isJsonWs c = false ∧ c ≠ ']' := by
  cases j with
  | null => exact ⟨'n', _, rfl, by decide, by decide⟩
  | bool b => cases b with
    | true => exact ⟨'t', _, rfl, by decide, by decide⟩
    | false => exact ⟨'f', _, rfl, by decide, by decide⟩
  | num n =>
    cases n with
    | ofNat m =>
      obtain ⟨hne, hdig⟩ := printNatF_digits (m + 1) m (by omega)
      rcases hds : printNatF (m + 1) m with _ | ⟨d, ds⟩
      · exact absurd hds hne
      · have hd : isDigitCh d = true := hdig d (by rw [hds]; simp)
        refine ⟨d, ds, ?_, not_ws_of_digit hd, ?_⟩
        · show printNatF (m + 1) m = d :: ds
          exact hds
        · intro he
          subst he
          exact absurd hd (by decide)
    | negSucc m => exact ⟨'-', _, rfl, by decide, by decide⟩
  | str s => exact ⟨'"', _, rfl, by decide, by decide⟩
  | arr xs => cases xs with
    | nil => exact ⟨'[', _, rfl, by decide, by decide⟩
    | cons x t => exact ⟨'[', _, rfl, by decide, by decide⟩
  | obj ms => cases ms with
    | nil => exact ⟨'\x7b', _, rfl, by decide, by decide⟩
    | cons m t => exact ⟨'\x7b', _, rfl, by decide, by decide⟩

/-- The serialisation of a value is non-empty. -/
theorem printJson_length_pos (j : Json) : 1 ≤ (printJson j).length := by
  obtain ⟨c, t, heq, -, -⟩ := printJson_head j
  rw [heq]
  simp

theorem headNotDigit_elemsTail (xs : List Json) (rest : List Char) :
    headNotDigit (printElemsTail xs ++ ']' :: rest) = true := by
  cases xs with
  | nil => rfl
  | cons y ys => rfl

theorem headNotDigit_memsTail (t : List (String × Json)) (rest : List Char) :
    headNotDigit (printMemsTail t ++ '\x7d' :: rest) = true := by
  cases t with
  | nil => rfl
  | cons m t2 =>
    obtain ⟨k, v⟩ := m
    rfl


theorem parseF_val_false (g : Nat) (rest : List Char) :
    parseF (g + 1) .val ('f' :: 'a' :: 'l' :: 's' :: 'e' :: rest) =
      some ((.v (.bool false), rest)) := by
  rw [parseF.eq_def]
  rfl

theorem parseF_val_arr_nil (g : Nat) (rest : List Char) :
    parseF (g + 1) .val ('[' :: ']' :: rest) = some ((.v (.arr []), rest)) := by
  rw [parseF.eq_def]
  rfl

theorem parseF_val_obj_nil (g : Nat) (rest : List Char) :
    parseF (g + 1) .val ('\x7b' :: '\x7d' :: rest) = some ((.v (.obj []), rest)) := by
  rw [parseF.eq_def]
  rfl

theorem parseF_val_obj_cons (g : Nat) (Z : List Char) :
    parseF (g + 1) .val ('\x7b' :: '"' :: Z) =
      (match parseF g .mems ('"' :: Z) with
       | some (.ms l, r) => some ((PRes.v (.obj l), r))
       | _ => none) := by
  rw [parseF.eq_def]
  rfl

theorem parseF_mems_quote (g : Nat) (W : List Char) :
    parseF (g + 1) .mems ('"' :: W) =
      (match parseStringBody W with
       | some (k, r1) =>
         (match r1.dropWhile isJsonWs with
          | ':' :: r2 =>
            (match parseF g .val r2 with
             | some (.v j, r3) =>
               (match r3.dropWhile isJsonWs with
                | ',' :: r4 =>
                  (match parseF g .mems r4 with
                   | some (.ms l, r5) => some ((PRes.ms ((String.mk k, j) :: l), r5))
                   | _ => none)
                | '\x7d' :: r4 => some ((PRes.ms [(String.mk k, j)], r4))
                | _ => none)
             | _ => none)
          | _ => none)
       | none => none) := by
  rw [parseF.eq_def]
  rfl

theorem parseF_val_arr_cons (g : Nat) (X : List Char)
    (h : ∃ c t, X = c :: t ∧ isJsonWs c = false ∧ c ≠ ']') :
    parseF (g + 1) .val ('[' :: X) =
      (match parseF g .elems X with
       | some (.vs l, r) => some ((PRes.v (.arr l), r))
       | _ => none) := by
  obtain ⟨c, t, rfl, hws, hne⟩ := h
  rw [parseF.eq_def]
  dsimp only
  rw [show List.dropWhile isJsonWs ('[' :: c :: t) = '[' :: c :: t from
    dropWhile_id (by decide)]
  dsimp only
  simp only [Char.reduceEq, show isDigitCh '[' = false from rfl,
    Bool.false_eq_true, reduceIte]
  rw [dropWhile_id hws]
  split
  · rename_i heq
    exact absurd (List.head_eq_of_cons_eq heq.symm) (fun he => hne he.symm)
  · rfl


/-- Characters in the digit range differ from the parser's branch
literals. -/
theorem digit_branch_neq {d : Char} (hd : isDigitCh d = true) :
    d ≠ 'n' ∧ d ≠ 't' ∧ d ≠ 'f' ∧ d ≠ '"' ∧ d ≠ '-' := by
  rw [isDigitCh_iff] at hd
  refine ⟨?_, ?_, ?_, ?_, ?_⟩ <;>
    exact fun he => absurd hd (by subst he; decide)

theorem parseF_val_num (g n : Nat) (rest : List Char) (h : headNotDigit rest = true) :
    parseF (g + 1) .val (printNat n ++ rest) = some ((.v (.num (n : Int)), rest)) := by
  obtain ⟨hne, hdig⟩ := printNatF_digits (n + 1) n (by omega)
  rcases hds : printNatF (n + 1) n with _ | ⟨d, ds⟩
  · exact absurd hds hne
  · have hd : isDigitCh d = true := hdig d (by rw [hds]; simp)
    obtain ⟨q1, q2, q3, q4, q5⟩ := digit_branch_neq hd
    have hshape : printNat n ++ rest = d :: (ds ++ rest) := by
      unfold printNat
      rw [hds]
      rfl
    rw [hshape, parseF.eq_def]
    dsimp only
    rw [dropWhile_id (not_ws_of_digit hd)]
    dsimp only
    rw [if_neg q1, if_neg q2, if_neg q3, if_neg q4, if_neg q5, if_pos hd]
    rw [show d :: (ds ++ rest) = printNat n ++ rest from hshape.symm,
      readDigits_printNat n rest h]

theorem parseF_val_negnum (g m : Nat) (rest : List Char) (h : headNotDigit rest = true) :
    parseF (g + 1) .val ('-' :: (printNat (m + 1) ++ rest)) =
      some ((.v (.num (Int.negSucc m)), rest)) := by
  obtain ⟨hne, hdig⟩ := printNatF_digits (m + 2) (m + 1) (by omega)
  rcases hds : printNatF (m + 2) (m + 1) with _ | ⟨d, ds⟩
  · exact absurd hds hne
  · have hd : isDigitCh d = true := hdig d (by rw [hds]; simp)
    have hshape : printNat (m + 1) ++ rest = d :: (ds ++ rest) := by
      unfold printNat
      rw [hds]
      rfl
    rw [hshape, parseF.eq_def]
    dsimp only
    rw [show List.dropWhile isJsonWs ('-' :: d :: (ds ++ rest)) = '-' :: d :: (ds ++ rest)
      from dropWhile_id (by decide)]
    dsimp only
    simp only [Char.reduceEq, reduceIte]
    rw [if_pos hd]
    rw [show d :: (ds ++ rest) = printNat (m + 1) ++ rest from hshape.symm,
      readDigits_printNat (m + 1) rest h]
    dsimp only
    congr 1



theorem parseF_elems_last (g : Nat) (cs : List Char) (x : Json) (rest : List Char)
    (hval : parseF g .val cs = some ((.v x, ']' :: rest))) :
    parseF (g + 1) .elems cs = some ((.vs [x], rest)) := by
  rw [parseF_elems_step, hval]
  rfl

theorem parseF_elems_more (g : Nat) (cs : List Char) (x : Json) (r2 : List Char)
    (hval : parseF g .val cs = some ((.v x, ',' :: r2))) :
    parseF (g + 1) .elems cs =
      (match parseF g .elems r2 with
       | some (.vs l, r3) => some ((PRes.vs (x :: l), r3))
       | _ => none) := by
  rw [parseF_elems_step, hval]
  rfl

theorem parseF_mems_quote2 (g : Nat) (W r2 : List Char) (k : List Char)
    (hstr : parseStringBody W = some ((k, ':' :: r2))) :
    parseF (g + 1) .mems ('"' :: W) =
      (match parseF g .val r2 with
       | some (.v j, r3) =>
         (match r3.dropWhile isJsonWs with
          | ',' :: r4 =>
            (match parseF g .mems r4 with
             | some (.ms l, r5) => some ((PRes.ms ((String.mk k, j) :: l), r5))
             | _ => none)
          | '\x7d' :: r4 => some ((PRes.ms [(String.mk k, j)], r4))
          | _ => none)
       | _ => none) := by
  rw [parseF_mems_quote, hstr]
  rfl

theorem parseF_mems_last (g : Nat) (W r2 : List Char) (k : List Char) (v : Json)
    (rest : List Char)
    (hstr : parseStringBody W = some ((k, ':' :: r2)))
    (hval : parseF g .val r2 = some ((.v v, '\x7d' :: rest))) :
    parseF (g + 1) .mems ('"' :: W) = some ((.ms [(String.mk k, v)], rest)) := by
  rw [parseF_mems_quote2 g W r2 k hstr, hval]
  rfl

theorem parseF_mems_more (g : Nat) (W r2 : List Char) (k : List Char) (v : Json)
    (r4 : List Char)
    (hstr : parseStringBody W = some ((k, ':' :: r2)))
    (hval : parseF g .val r2 = some ((.v v, ',' :: r4))) :
    parseF (g + 1) .mems ('"' :: W) =
      (match parseF g .mems r4 with
       | some (.ms l, r5) => some ((PRes.ms ((String.mk k, v) :: l), r5))
       | _ => none) := by
  rw [parseF_mems_quote2 g W r2 k hstr, hval]
  rfl

/-- Round trip of the fuelled parser over the serialiser, by strong
induction on a bound for the payload size: a printed value parses back to
itself in `val` mode, printed array elements parse back in `elems` mode,
and printed object members parse back in `mems` mode, each with fuel at
least twice the input length plus a constant. -/
theorem parse_print (N : Nat) :
    (∀ j : Json, sizeOf j ≤ N → ∀ (rest : List Char) (g : Nat),
        headNotDigit rest = true →
        2 * (printJson j ++ rest).length + 1 ≤ g →
        parseF g .val (printJson j ++ rest) = some ((.v j, rest))) ∧
    (∀ (x : Json) (xs : List Json), sizeOf x + sizeOf xs ≤ N →
        ∀ (rest : List Char) (g : Nat),
        2 * (printJson x ++ (printElemsTail xs ++ ']' :: rest)).length + 2 ≤ g →
        parseF g .elems (printJson x ++ (printElemsTail xs ++ ']' :: rest)) =
          some ((.vs (x :: xs), rest))) ∧
    (∀ (k : String) (v : Json) (t : List (String × Json)), sizeOf v + sizeOf t ≤ N →
        ∀ (rest : List Char) (g : Nat),
        2 * ('"' :: (escapeList k.data ++
            ('"' :: (':' :: (printJson v ++ (printMemsTail t ++ '\x7d' :: rest)))))).length
          + 2 ≤ g →
        parseF g .mems ('"' :: (escapeList k.data ++
            ('"' :: (':' :: (printJson v ++ (printMemsTail t ++ '\x7d' :: rest)))))) =
          some ((.ms ((k, v) :: t), rest))) := by
  induction N using Nat.strong_induction_on with
  | _ N IH =>
  refine ⟨?_, ?_, ?_⟩
  · -- value mode
    intro j hj rest g hrest hg
    obtain ⟨g', rfl⟩ : ∃ g', g = g' + 1 := ⟨g - 1, by omega⟩
    cases j with
    | null => exact parseF_val_null g' rest
    | bool b =>
      cases b with
      | true => exact parseF_val_true g' rest
      | false => exact parseF_val_false g' rest
    | num n =>
      cases n with
      | ofNat m => exact parseF_val_num g' m rest hrest
      | negSucc m =>
        show parseF (g' + 1) .val (('-' :: printNat (m + 1)) ++ rest) = _
        rw [List.cons_append]
        exact parseF_val_negnum g' m rest hrest
    | str s =>
      have hflat : printJson (.str s) ++ rest = '"' :: (escapeList s.data ++ '"' :: rest) := by
        show ('"' :: escapeList s.data ++ ['"']) ++ rest = _
        simp
      rw [hflat, parseF_val_str, parseStringBody_escape s.data rest]
    | arr xs =>
      cases xs with
      | nil => exact parseF_val_arr_nil g' rest
      | cons x xs =>
        have hflat : printJson (.arr (x :: xs)) ++ rest =
            '[' :: (printJson x ++ (printElemsTail xs ++ ']' :: rest)) := by
          show ('[' :: (printJson x ++ printElemsTail xs) ++ [']']) ++ rest = _
          simp
        rw [hflat]
        obtain ⟨c, t, hct, hws, hne⟩ := printJson_head x
        rw [parseF_val_arr_cons g' _ ⟨c, t ++ (printElemsTail xs ++ ']' :: rest),
          by rw [hct]; rfl, hws, hne⟩]
        have hsz : sizeOf x + sizeOf xs < N := by
          have : sizeOf (Json.arr (x :: xs)) = 1 + (1 + sizeOf x + sizeOf xs) := by simp
          omega
        have hg2 : 2 * (printJson x ++ (printElemsTail xs ++ ']' :: rest)).length + 2 ≤ g' := by
          rw [hflat] at hg
          simp only [List.length_cons] at hg
          omega
        rw [(IH _ hsz).2.1 x xs le_rfl rest g' hg2]
    | obj ms =>
      cases ms with
      | nil => exact parseF_val_obj_nil g' rest
      | cons m t =>
        obtain ⟨k, v⟩ := m
        have hflat : printJson (.obj ((k, v) :: t)) ++ rest =
            '\x7b' :: ('"' :: (escapeList k.data ++
              ('"' :: (':' :: (printJson v ++ (printMemsTail t ++ '\x7d' :: rest)))))) := by
          show ('\x7b' :: ((('"' :: escapeList k.data ++ ['"']) ++ ':' :: printJson v)
            ++ printMemsTail t) ++ ['\x7d']) ++ rest = _
          simp
        rw [hflat, parseF_val_obj_cons]
        have hsz : sizeOf v + sizeOf t < N := by
          have : sizeOf (Json.obj ((k, v) :: t))
              = 1 + (1 + (1 + sizeOf k + sizeOf v) + sizeOf t) := by simp
          omega
        have hg2 : 2 * ('"' :: (escapeList k.data ++
            ('"' :: (':' :: (printJson v ++ (printMemsTail t ++ '\x7d' :: rest)))))).length
            + 2 ≤ g' := by
          rw [hflat] at hg
          simp only [List.length_cons] at hg ⊢
          omega
        rw [(IH _ hsz).2.2 k v t le_rfl rest g' hg2]
  · -- elements mode
    intro x xs hxs rest g hg
    obtain ⟨g', rfl⟩ : ∃ g', g = g' + 1 := ⟨g - 1, by omega⟩
    have hszx : sizeOf x < N := by
      have : 0 < sizeOf xs := by cases xs <;> simp
      omega
    have hgx : 2 * (printJson x ++ (printElemsTail xs ++ ']' :: rest)).length + 1 ≤ g' := by
      omega
    have hval := (IH _ hszx).1 x le_rfl (printElemsTail xs ++ ']' :: rest) g'
      (headNotDigit_elemsTail xs rest) hgx
    cases xs with
    | nil =>
      rw [show printElemsTail ([] : List Json) ++ ']' :: rest = ']' :: rest from rfl] at hval ⊢
      exact parseF_elems_last g' _ x rest hval
    | cons y ys =>
      have htail : printElemsTail (y :: ys) ++ ']' :: rest =
          ',' :: (printJson y ++ (printElemsTail ys ++ ']' :: rest)) := by
        show (',' :: printJson y ++ printElemsTail ys) ++ ']' :: rest = _
        simp
      rw [htail] at hval ⊢
      rw [parseF_elems_more g' _ x _ hval]
      have hszy : sizeOf y + sizeOf ys < N := by
        have : sizeOf (y :: ys) = 1 + sizeOf y + sizeOf ys := by simp
        omega
      have hgy : 2 * (printJson y ++ (printElemsTail ys ++ ']' :: rest)).length + 2 ≤ g' := by
        have hx1 := printJson_length_pos x
        rw [htail] at hg
        simp only [List.length_append, List.length_cons] at hg ⊢
        omega
      rw [(IH _ hszy).2.1 y ys le_rfl rest g' hgy]
  · -- members mode
    intro k v t hvt rest g hg
    obtain ⟨g', rfl⟩ : ∃ g', g = g' + 1 := ⟨g - 1, by omega⟩
    have hszv : sizeOf v < N := by
      have : 0 < sizeOf t := by cases t <;> simp
      omega
    have hgv : 2 * (printJson v ++ (printMemsTail t ++ '\x7d' :: rest)).length + 1 ≤ g' := by
      simp only [List.length_cons, List.length_append] at hg ⊢
      omega
    have hval := (IH _ hszv).1 v le_rfl (printMemsTail t ++ '\x7d' :: rest) g'
      (headNotDigit_memsTail t rest) hgv
    cases t with
    | nil =>
      rw [show printMemsTail ([] : List (String × Json)) ++ '\x7d' :: rest
        = '\x7d' :: rest from rfl] at hval ⊢
      have hstr := parseStringBody_escape k.data (':' :: (printJson v ++ '\x7d' :: rest))
      have hres := parseF_mems_last g' _ _ k.data v rest hstr hval
      rw [mk_data] at hres
      exact hres
    | cons m t2 =>
      obtain ⟨k2, v2⟩ := m
      have htail : printMemsTail ((k2, v2) :: t2) ++ '\x7d' :: rest =
          ',' :: ('"' :: (escapeList k2.data ++
            ('"' :: (':' :: (printJson v2 ++ (printMemsTail t2 ++ '\x7d' :: rest)))))) := by
        show (',' :: (('"' :: escapeList k2.data ++ ['"']) ++ ':' :: printJson v2)
          ++ printMemsTail t2) ++ '\x7d' :: rest = _
        simp
      rw [htail] at hval ⊢
      have hstr := parseStringBody_escape k.data (':' :: (printJson v ++
        (',' :: ('"' :: (escapeList k2.data ++
          ('"' :: (':' :: (printJson v2 ++ (printMemsTail t2 ++ '\x7d' :: rest)))))))))
      rw [parseF_mems_more g' _ _ k.data v _ hstr hval]
      have hszv2 : sizeOf v2 + sizeOf t2 < N := by
        have h1 : sizeOf ((k2, v2) :: t2) = 1 + (1 + sizeOf k2 + sizeOf v2) + sizeOf t2 := by
          simp
        omega
      have hgv2 : 2 * ('"' :: (escapeList k2.data ++
          ('"' :: (':' :: (printJson v2 ++ (printMemsTail t2 ++ '\x7d' :: rest)))))).length
          + 2 ≤ g' := by
        have hv1 := printJson_length_pos v
        rw [htail] at hg
        simp only [List.length_append, List.length_cons] at hg ⊢
        omega
      rw [(IH _ hszv2).2.2 k2 v2 t2 le_rfl rest g' hgv2, mk_data]


/-! ## Lemmas about the fenced-block matcher -/

/-- A list headed by a non-backtick is not a triple-backtick prefix. -/
theorem isTripleTick_false {c : Char} (hc : c ≠ '\x60') (z : List Char) :
    isTripleTick (c :: z) = false := by
  cases z with
  | nil => rfl
  | cons a w =>
    cases w with
    | nil => rfl
    | cons b w2 => simp [isTripleTick, hc]

/-- No closing fence can follow when the text up to the next non-whitespace
character stays inside a backtick-free block. -/
theorem fenceAfter_append_false {u : List Char} (z : List Char)
    (hu : List.dropWhile isRegexWs u ≠ []) (hnb : '\x60' ∉ u) :
    fenceAfter (u ++ z) = false := by
  unfold fenceAfter
  rw [List.dropWhile_append]
  rw [if_neg (by simpa using hu)]
  rcases hd : List.dropWhile isRegexWs u with _ | ⟨c, t⟩
  · exact absurd hd hu
  · have hcmem : c ∈ u := by
      have hsub := List.dropWhile_sublist (l := u) isRegexWs
      rw [hd] at hsub
      exact hsub.subset (by simp)
    exact isTripleTick_false (fun he => hnb (he ▸ hcmem)) _

/-- The lazy body scan captures a backtick-free block ending in a closing
brace exactly up to the closing fence. -/
theorem scanLazyBody_full : ∀ (u : List Char), u ≠ [] → u.getLast? = some '\x7d' →
    '\x60' ∉ u →
    scanLazyBody (u ++ ('\n' :: '\x60' :: '\x60' :: '\x60' :: [])) = some u
  | [], hne, _, _ => absurd rfl hne
  | [c], _, hlast, _ => by
    have hc : c = '\x7d' := by simpa using hlast
    subst hc
    rfl
  | c :: d :: u', _, hlast, hnb => by
    have hlast' : (d :: u').getLast? = some '\x7d' := by
      rw [List.getLast?_cons_cons] at hlast
      exact hlast
    have hnb' : '\x60' ∉ d :: u' := fun hm => hnb (List.mem_cons_of_mem c hm)
    have hmem : '\x7d' ∈ d :: u' := List.mem_of_mem_getLast? hlast'
    have hdw : List.dropWhile isRegexWs (d :: u') ≠ [] := by
      rw [Ne, List.dropWhile_eq_nil_iff]
      intro hall
      have := hall '\x7d' hmem
      simp [isRegexWs] at this
    have ih := scanLazyBody_full (d :: u') (by simp) hlast' hnb'
    show scanLazyBody (c :: ((d :: u') ++ ('\n' :: '\x60' :: '\x60' :: '\x60' :: []))) = _
    rw [scanLazyBody.eq_def]
    have hcond : (c = '\x7d' && fenceAfter ((d :: u') ++ ('\n' :: '\x60' :: '\x60' :: '\x60' :: []))) = false := by
      rw [fenceAfter_append_false _ hdw hnb']
      simp
    simp only [hcond, Bool.false_eq_true, if_false, ih]
    rfl

/-- The fenced-block attempt right after the opening fence of a wrapped
serialisation captures exactly the serialised object. -/
theorem tryFenceAt_wrap (core : List Char) (hne : core ≠ [])
    (hlast : core.getLast? = some '\x7d') (hnb : '\x60' ∉ core) :
    tryFenceAt ('j' :: 's' :: 'o' :: 'n' :: '\n' ::
        ('\x7b' :: (core ++ ('\n' :: '\x60' :: '\x60' :: '\x60' :: [])))) =
      some ('\x7b' :: core) := by
  unfold tryFenceAt
  rw [show (("json").data.isPrefixOf ('j' :: 's' :: 'o' :: 'n' :: '\n' ::
      ('\x7b' :: (core ++ ('\n' :: '\x60' :: '\x60' :: '\x60' :: []))))) = true from rfl]
  simp only [reduceIte, List.drop_succ_cons, List.drop_zero]
  rw [List.dropWhile_cons]
  simp only [show isRegexWs '\n' = true from rfl, reduceIte]
  rw [List.dropWhile_cons]
  simp only [show isRegexWs '\x7b' = false from rfl, Bool.false_eq_true, if_false]
  simp only [Char.reduceEq, reduceIte]
  rw [scanLazyBody_full core hne hlast hnb]
  rfl

/-- The leftmost fenced match on a wrapped backtick-free serialisation is
the serialisation itself. -/
theorem findFenced_fenceWrap (core : List Char) (hne : core ≠ [])
    (hlast : core.getLast? = some '\x7d') (hnb : '\x60' ∉ core) :
    findFenced (fenceWrap ('\x7b' :: core)) = some ('\x7b' :: core) := by
  have hshape : fenceWrap ('\x7b' :: core) =
      '\x60' :: '\x60' :: '\x60' :: ('j' :: 's' :: 'o' :: 'n' :: '\n' ::
        ('\x7b' :: (core ++ ('\n' :: '\x60' :: '\x60' :: '\x60' :: [])))) := by
    show ("```json\n").data ++ ('\x7b' :: core) ++ ("\n```").data = _
    simp
  rw [hshape, findFenced.eq_def]
  dsimp only
  rw [if_pos (by decide)]
  rw [tryFenceAt_wrap core hne hlast hnb]


/-- A serialised object is an opening brace followed by a non-empty block
ending in a closing brace. -/
theorem printJson_obj_split (mems : List (String × Json)) :
    ∃ core, printJson (.obj mems) = '\x7b' :: core ∧
      core.getLast? = some '\x7d' ∧ core ≠ [] := by
  cases mems with
  | nil => exact ⟨['\x7d'], rfl, rfl, by simp⟩
  | cons m t =>
    obtain ⟨k, v⟩ := m
    refine ⟨((printStrLit k ++ ':' :: printJson v) ++ printMemsTail t) ++ ['\x7d'],
      rfl, List.getLast?_concat _, by simp⟩

/-- Trimming is the identity on a block with non-whitespace first and last
characters. -/
theorem jsTrim_id (c : Char) (t : List Char) (hc : isRegexWs c = false)
    (hlast : ∃ d, (c :: t).getLast? = some d ∧ isRegexWs d = false) :
    jsTrim (c :: t) = c :: t := by
  obtain ⟨d, hd, hdws⟩ := hlast
  unfold jsTrim
  rw [List.dropWhile_cons]
  simp only [hc, Bool.false_eq_true, if_false]
  have hrev : ∃ w, (c :: t).reverse = d :: w := by
    have := List.head?_reverse (c :: t)
    rw [hd] at this
    rcases hr : (c :: t).reverse with _ | ⟨e, w⟩
    · rw [hr] at this
      cases this
    · rw [hr] at this
      simp at this
      exact ⟨w, by rw [this]⟩
  obtain ⟨w, hw⟩ := hrev
  rw [hw, List.dropWhile_cons]
  simp only [hdws, Bool.false_eq_true, if_false]
  rw [← hw, List.reverse_reverse]

/-- The clean-up step leaves a brace-delimited serialisation unchanged. -/
theorem cleanupCandidate_id (core : List Char)
    (hlast : core.getLast? = some '\x7d') :
    cleanupCandidate ('\x7b' :: core) = '\x7b' :: core := by
  have hlast2 : ('\x7b' :: core).getLast? = some '\x7d' := by
    cases core with
    | nil => cases hlast
    | cons a w => rw [List.getLast?_cons_cons]; exact hlast
  unfold cleanupCandidate
  simp only [jsTrim_id '\x7b' core (by decide) ⟨'\x7d', hlast2, by decide⟩, hlast2, reduceIte]

/-- The parse of a printed value consumes everything and returns the
value. -/
theorem parseJsonChars_print (j : Json) : parseJsonChars (printJson j) = some j := by
  unfold parseJsonChars
  have h := (parse_print (sizeOf j)).1 j le_rfl [] (2 * (printJson j).length + 2)
    rfl (by simp)
  rw [List.append_nil] at h
  rw [h]
  rfl


/-- Counterexample to C6 as stated: a shape-valid payload whose question
text contains a closing brace and a triple backtick serialises to a fenced
string from which the extractor recovers nothing — the lazy fenced capture
stops at the first closing brace followed by backticks, the truncated
substring fails to parse, and the round trip yields absent instead of the
payload. -/
theorem c6_counterexample :
    isDatePlanShape backtickPayload = true ∧
      tryParseDatePlanJson (.strv (fenceWrapStr (printJson backtickPayload))) = none :=
  ⟨rfl, rfl⟩

/-- C6 as amended: the round trip holds for every shape-valid payload whose
serialisation contains no backtick character — serialising, wrapping in a
fenced code block and extracting reproduces the payload. -/
theorem c6_roundtrip (p : Json) (hshape : isDatePlanShape p = true)
    (hnb : '\x60' ∉ printJson p) :
    tryParseDatePlanJson (.strv (fenceWrapStr (printJson p))) = some p := by
  have hstat : statusIsAccepted p = true := by
    have hs := hshape
    simp only [isDatePlanShape, Bool.and_eq_true] at hs
    exact hs.1.2
  obtain ⟨mems, rfl⟩ := statusAccepted_obj hstat
  obtain ⟨core, hsplit, hlast, hne⟩ := printJson_obj_split mems
  rw [tryParse_strv]
  rw [show (fenceWrapStr (printJson (Json.obj mems))).data
    = fenceWrap (printJson (Json.obj mems)) from rfl]
  unfold tryParseDatePlanJsonChars
  rw [hsplit] at hnb ⊢
  have hnbcore : '\x60' ∉ core := fun hm => hnb (List.mem_cons_of_mem _ hm)
  rw [show findCandidate (fenceWrap ('\x7b' :: core)) = some ('\x7b' :: core) from by
    unfold findCandidate
    rw [findFenced_fenceWrap core hne hlast hnbcore]]
  show shapeGate (parseJsonChars (cleanupCandidate ('\x7b' :: core))) = _
  rw [cleanupCandidate_id core hlast, ← hsplit, parseJsonChars_print]
  simp [shapeGate, hshape]


/-- Witness for the amended C6 at a concrete backtick-free shape-valid
payload exercising objects, arrays, strings with escapes, booleans, null
and signed numbers. -/
theorem c6_roundtrip_witness :
    isDatePlanShape roundtripPayload = true ∧
      '\x60' ∉ printJson roundtripPayload ∧
      tryParseDatePlanJson (.strv (fenceWrapStr (printJson roundtripPayload))) =
        some roundtripPayload :=
  ⟨rfl, by decide, c6_roundtrip roundtripPayload rfl (by decide)⟩

end DatePlanSpec
